import Mathlib

/-!
Verification of the LSTM baseline grid-search script (lstm_baseline.py).

The script trains a small recurrent binary classifier on tweet-cascade
sequence data, sweeping learning rate, batch size and hidden size in a
triple nested loop.  The definitions below are a shallow embedding of the
script's pure control logic: Python floats are modelled as rationals,
numpy arrays as lists, tensors as nested lists, and the filesystem side
effects of the training entry point as an explicit state-passing function.
-/

namespace LstmBaseline

/-! ## Grid search hyperparameter enumeration (lstm_baseline.py lines 218-229)

The script builds
  lrs = [1. * 10 ** (-i) for i in range(1, 4)]
  batch_sizes = [32, 64]
  hidden_sizes = [12, 24, 48, 64]
and iterates `for lr in lrs: for batch_size in batch_sizes: for hidden_size in hidden_sizes`.
Powers of ten are modelled exactly over the rationals. -/

def lrs : List ℚ := (List.range' 1 3).map (fun i => 1 * (1 / (10 : ℚ) ^ i))

def batch_sizes : List ℕ := [32, 64]

def hidden_sizes : List ℕ := [12, 24, 48, 64]

/-- The sequence of hyperparameter triples (lr, batch_size, hidden_size) visited by
the triple nested loop, learning rate outermost, hidden size innermost. -/
def gridCombos : List (ℚ × ℕ × ℕ) :=
  lrs.flatMap (fun lr =>
    batch_sizes.flatMap (fun bs =>
      hidden_sizes.map (fun hs => (lr, bs, hs))))

/-- total_steps = len(lrs) * len(batch_sizes) * len(hidden_sizes) (line 222). -/
def total_steps : ℕ := lrs.length * batch_sizes.length * hidden_sizes.length

/-- C2: the grid-search driver visits exactly one hyperparameter triple for every
combination of learning rate in \x7b0.1, 0.01, 0.001\x7d, batch size in \x7b32, 64\x7d and
hidden size in \x7b12, 24, 48, 64\x7d, iterating learning rate outermost and hidden
size innermost; there are exactly 24 runs, each combination occurs exactly once
(the enumeration is duplicate-free), and total_steps equals 24. -/
theorem c2_grid_enumeration :
    gridCombos =
      [ (1/10, 32, 12), (1/10, 32, 24), (1/10, 32, 48), (1/10, 32, 64),
        (1/10, 64, 12), (1/10, 64, 24), (1/10, 64, 48), (1/10, 64, 64),
        (1/100, 32, 12), (1/100, 32, 24), (1/100, 32, 48), (1/100, 32, 64),
        (1/100, 64, 12), (1/100, 64, 24), (1/100, 64, 48), (1/100, 64, 64),
        (1/1000, 32, 12), (1/1000, 32, 24), (1/1000, 32, 48), (1/1000, 32, 64),
        (1/1000, 64, 12), (1/1000, 64, 24), (1/1000, 64, 48), (1/1000, 64, 64) ]
    ∧ gridCombos.length = 24 ∧ total_steps = 24 ∧ gridCombos.Nodup := by
  refine ⟨?_, ?_, ?_, ?_⟩
  · simp only [gridCombos, lrs, batch_sizes, hidden_sizes, List.range',
      List.map_cons, List.map_nil, List.flatMap_cons, List.flatMap_nil,
      List.append_nil, List.cons_append, List.nil_append]
    norm_num
  · simp [gridCombos, lrs, batch_sizes, hidden_sizes, List.range']
  · simp [total_steps, lrs, batch_sizes, hidden_sizes, List.range']
  · simp only [gridCombos, lrs, batch_sizes, hidden_sizes, List.range',
      List.map_cons, List.map_nil, List.flatMap_cons, List.flatMap_nil,
      List.append_nil, List.cons_append, List.nil_append,
      List.nodup_cons, List.mem_cons, List.not_mem_nil, List.nodup_nil]
    norm_num

/-! ## dataset_iterator (lstm_baseline.py lines 96-111)

The generator keeps a cursor count_sampled, and while count_sampled < n it
yields the slice dataset[count_sampled : count_sampled + batch_size] and then
advances the cursor by batch_size.  Since each yielded slice starts exactly
where the previous one ended, the loop is equivalently a recursion on the
remaining suffix of the list; the optional shuffle permutes the list before
the loop starts and is modelled by quantifying over the (already shuffled)
input list.  A batch_size of 0 would loop forever in Python; the claim
restricts to batch_size >= 1 and the embedding returns [] in that case. -/

def dataset_iterator {α : Type*} : List α → ℕ → List (List α)
  | [], _ => []
  | a :: l, bs =>
    if _h : bs = 0 then []
    else (a :: l).take bs :: dataset_iterator ((a :: l).drop bs) bs
termination_by l _ => l.length
decreasing_by
  simp only [List.length_drop, List.length_cons]
  omega

theorem dataset_iterator_length {α : Type*} (bs : ℕ) (hbs : bs ≠ 0) (l : List α) :
    (dataset_iterator l bs).length = (l.length + bs - 1) / bs := by
  induction l, bs using dataset_iterator.induct with
  | case1 bs =>
    simp only [dataset_iterator, List.length_nil, Nat.zero_add]
    exact (Nat.div_eq_of_lt (by omega)).symm
  | case2 a l => exact absurd rfl hbs
  | case3 a l bs h ih =>
    rw [dataset_iterator]
    have ih2 := ih hbs
    simp only [h, dite_false, List.length_cons, ih2, List.length_drop]
    rcases le_or_lt (l.length + 1) bs with hle | hlt
    · have h1 : l.length + 1 - bs = 0 := by omega
      rw [h1]
      rw [Nat.div_eq_of_lt (by omega)]
      rw [(by omega : l.length + 1 + bs - 1 = l.length + bs)]
      rw [Nat.add_div_right _ (by omega)]
      rw [Nat.div_eq_of_lt (by omega)]
    · have h2 : l.length + 1 + bs - 1 = (l.length + 1 - bs + bs - 1) + bs := by omega
      rw [h2, Nat.add_div_right _ (by omega)]

theorem dataset_iterator_flatten {α : Type*} (bs : ℕ) (hbs : bs ≠ 0) (l : List α) :
    (dataset_iterator l bs).flatten = l := by
  induction l, bs using dataset_iterator.induct with
  | case1 bs => simp [dataset_iterator]
  | case2 a l => exact absurd rfl hbs
  | case3 a l bs h ih => simp [dataset_iterator, h, ih, List.take_append_drop]

theorem dataset_iterator_getElem {α : Type*} (bs : ℕ) (hbs : bs ≠ 0) (l : List α) :
    ∀ i : ℕ, (dataset_iterator l bs)[i]? =
      if i * bs < l.length then some ((l.drop (i * bs)).take bs) else none := by
  induction l, bs using dataset_iterator.induct with
  | case1 bs => intro i; simp [dataset_iterator]
  | case2 a l => exact absurd rfl hbs
  | case3 a l bs h ih =>
    intro i
    rw [dataset_iterator]
    simp only [h, dite_false]
    cases i with
    | zero => simp
    | succ i =>
      have hstep := ih hbs i
      simp only [List.getElem?_cons_succ, hstep, List.length_drop, List.length_cons,
        List.drop_drop]
      rw [Nat.succ_mul]
      rcases le_or_lt bs (l.length + 1) with hle | hlt
      · by_cases hcond : i * bs < l.length + 1 - bs
        · have hc2 : i * bs + bs < l.length + 1 := by omega
          rw [if_pos hcond, if_pos hc2, Nat.add_comm bs (i * bs)]
        · have hc2 : ¬ (i * bs + bs < l.length + 1) := by omega
          rw [if_neg hcond, if_neg hc2]
      · have hc1 : ¬ (i * bs < l.length + 1 - bs) := by omega
        have hc2 : ¬ (i * bs + bs < l.length + 1) := by omega
        rw [if_neg hc1, if_neg hc2]

theorem dataset_iterator_batch_le {α : Type*} (bs : ℕ) (hbs : bs ≠ 0) (l : List α) :
    ∀ b ∈ dataset_iterator l bs, b.length ≤ bs := by
  induction l, bs using dataset_iterator.induct with
  | case1 bs => intro b hb; simp [dataset_iterator] at hb
  | case2 a l => exact absurd rfl hbs
  | case3 a l bs h ih =>
    intro b hb
    rw [dataset_iterator] at hb
    simp only [h, dite_false, List.mem_cons] at hb
    rcases hb with rfl | hb
    · simp only [List.length_take, List.length_cons]
      omega
    · exact ih hbs b hb

theorem dataset_iterator_full_batches {α : Type*} (bs : ℕ) (hbs : bs ≠ 0) (l : List α) :
    ∀ b ∈ (dataset_iterator l bs).dropLast, b.length = bs := by
  induction l, bs using dataset_iterator.induct with
  | case1 bs => intro b hb; simp [dataset_iterator] at hb
  | case2 a l => exact absurd rfl hbs
  | case3 a l bs h ih =>
    intro b hb
    rw [dataset_iterator] at hb
    simp only [h, dite_false] at hb
    cases hrec : dataset_iterator ((a :: l).drop bs) bs with
    | nil => rw [hrec] at hb; simp at hb
    | cons y ys =>
      rw [hrec, List.dropLast_cons₂, List.mem_cons] at hb
      have hne : (a :: l).drop bs ≠ [] := by
        intro hcontra
        rw [hcontra] at hrec
        simp [dataset_iterator] at hrec
      have hlen : bs < l.length + 1 := by
        by_contra hcon
        exact hne (List.drop_eq_nil_of_le (by simpa using Nat.le_of_not_lt hcon))
      rcases hb with rfl | hb
      · simp only [List.length_take, List.length_cons]
        omega
      · exact ih hbs b (by rw [hrec]; exact hb)

/-- C8: for every dataset (modelled after the optional shuffle) and every
batch_size >= 1, dataset_iterator yields exactly ceil(n / batch_size) batches,
the i-th batch is the contiguous slice dataset[i*batch_size : (i+1)*batch_size],
every batch has length at most batch_size, every batch except possibly the
last has length exactly batch_size, and the concatenation of the batches in
order is the dataset itself, so each element appears in exactly one batch. -/
theorem c8_dataset_iterator_batches {α : Type*} (bs : ℕ) (l : List α) (hbs : 1 ≤ bs) :
    (dataset_iterator l bs).length = (l.length + bs - 1) / bs
    ∧ (dataset_iterator l bs).flatten = l
    ∧ (∀ i : ℕ, (dataset_iterator l bs)[i]? =
        if i * bs < l.length then some ((l.drop (i * bs)).take bs) else none)
    ∧ (∀ b ∈ dataset_iterator l bs, b.length ≤ bs)
    ∧ (∀ b ∈ (dataset_iterator l bs).dropLast, b.length = bs) := by
  have hbs0 : bs ≠ 0 := by omega
  exact ⟨dataset_iterator_length bs hbs0 l, dataset_iterator_flatten bs hbs0 l,
    dataset_iterator_getElem bs hbs0 l, dataset_iterator_batch_le bs hbs0 l,
    dataset_iterator_full_batches bs hbs0 l⟩

/-- Witness for C8 at the concrete dataset [0, 1, 2, 3, 4] with batch size 2. -/
theorem c8_dataset_iterator_batches_witness :
    1 ≤ 2
    ∧ ((dataset_iterator [0, 1, 2, 3, 4] 2).length = (([0, 1, 2, 3, 4] : List ℕ).length + 2 - 1) / 2
    ∧ (dataset_iterator [0, 1, 2, 3, 4] 2).flatten = [0, 1, 2, 3, 4]
    ∧ (∀ i : ℕ, (dataset_iterator [0, 1, 2, 3, 4] 2)[i]? =
        if i * 2 < ([0, 1, 2, 3, 4] : List ℕ).length
        then some ((([0, 1, 2, 3, 4] : List ℕ).drop (i * 2)).take 2) else none)
    ∧ (∀ b ∈ dataset_iterator [0, 1, 2, 3, 4] 2, b.length ≤ 2)
    ∧ (∀ b ∈ (dataset_iterator ([0, 1, 2, 3, 4] : List ℕ) 2).dropLast, b.length = 2)) :=
  ⟨by omega, c8_dataset_iterator_batches 2 [0, 1, 2, 3, 4] (by omega)⟩

/-! ## Baseline accuracy (lstm_baseline.py lines 214-216)

baseline_acc = train_dataset.Y.float().mean().item()
baseline_acc = max(1 - baseline_acc, baseline_acc)
The integer label tensor is modelled as a list of integers and the float mean
as the exact rational mean. -/

def toFloatList (Y : List ℤ) : List ℚ := Y.map (fun y => (y : ℚ))

def tensorMean (Y : List ℤ) : ℚ := (toFloatList Y).sum / (Y.length : ℚ)

def baseline_acc (Y : List ℤ) : ℚ := max (1 - tensorMean Y) (tensorMean Y)

theorem toFloatList_cons (y : ℤ) (l : List ℤ) :
    toFloatList (y :: l) = (y : ℚ) :: toFloatList l := rfl

theorem sum_cast_eq_count_one (Y : List ℤ) (hbin : ∀ y ∈ Y, y = 0 ∨ y = 1) :
    (toFloatList Y).sum = (Y.count 1 : ℚ) := by
  induction Y with
  | nil => simp [toFloatList]
  | cons y l ih =>
    have hy := hbin y (List.mem_cons_self y l)
    have ihl := ih (fun z hz => hbin z (List.mem_cons_of_mem y hz))
    rcases hy with rfl | rfl
    · rw [toFloatList_cons, List.sum_cons, ihl, List.count_cons]
      norm_num
    · rw [toFloatList_cons, List.sum_cons, ihl, List.count_cons]
      simp only [beq_self_eq_true, if_true]
      push_cast
      ring

/-- C9: for a nonempty tensor of binary labels, the baseline accuracy computed
from the training labels equals max(p, 1 - p) where p is the fraction of
positive labels, and it always lies between 1/2 and 1. -/
theorem c9_baseline_acc_max (Y : List ℤ) (hbin : ∀ y ∈ Y, y = 0 ∨ y = 1)
    (hne : Y ≠ []) :
    baseline_acc Y =
      max ((Y.count 1 : ℚ) / (Y.length : ℚ)) (1 - (Y.count 1 : ℚ) / (Y.length : ℚ))
    ∧ 1 / 2 ≤ baseline_acc Y ∧ baseline_acc Y ≤ 1 := by
  have hn : 0 < (Y.length : ℚ) := by
    have : 0 < Y.length := List.length_pos.mpr hne
    exact_mod_cast this
  have hmean : tensorMean Y = (Y.count 1 : ℚ) / (Y.length : ℚ) := by
    rw [tensorMean, sum_cast_eq_count_one Y hbin]
  have hp0 : 0 ≤ tensorMean Y := by
    rw [hmean]
    positivity
  have hp1 : tensorMean Y ≤ 1 := by
    rw [hmean]
    rw [div_le_one hn]
    exact_mod_cast Y.count_le_length 1
  refine ⟨?_, ?_, ?_⟩
  · rw [baseline_acc, hmean, max_comm]
  · rw [baseline_acc]
    rcases le_total (tensorMean Y) (1 / 2) with hle | hle
    · exact le_max_of_le_left (by linarith)
    · exact le_max_of_le_right hle
  · rw [baseline_acc]
    exact max_le (by linarith) hp1

/-- Witness for C9 at the concrete label tensor [1, 0, 1]. -/
theorem c9_baseline_acc_max_witness :
    (∀ y ∈ ([1, 0, 1] : List ℤ), y = 0 ∨ y = 1) ∧ ([1, 0, 1] : List ℤ) ≠ []
    ∧ (baseline_acc [1, 0, 1] =
        max ((([1, 0, 1] : List ℤ).count 1 : ℚ) / (([1, 0, 1] : List ℤ).length : ℚ))
          (1 - (([1, 0, 1] : List ℤ).count 1 : ℚ) / (([1, 0, 1] : List ℤ).length : ℚ))
      ∧ 1 / 2 ≤ baseline_acc [1, 0, 1] ∧ baseline_acc [1, 0, 1] ≤ 1) :=
  ⟨by decide, by decide,
    c9_baseline_acc_max [1, 0, 1] (by decide) (by decide)⟩

/-! ## SeqDataset and seq_data_to_dataset (lstm_baseline.py lines 41-68)

A raw sequential dataset is a list of (sequence, label) examples; the sequence
payload is abstracted as a type parameter and the binary label as an integer.
preprocess_sequences_to_fixed_len and standardize_and_turn_tensor are imported
from utils, which is not part of src/, so they are modelled from the spec. -/

structure SeqDataset (σ : Type*) where
  X : List σ
  Y : List ℤ

/-- SeqDataset.__len__ returns self.Y.size(0) (lines 55-56). -/
def SeqDataset.len {σ : Type*} (d : SeqDataset σ) : ℕ := d.Y.length

/-- SeqDataset.__getitem__ returns the sample at idx, pairing row idx of X with
entry idx of Y (lines 58-60); out-of-range indices are modelled as none. -/
def SeqDataset.getitem {σ : Type*} (d : SeqDataset σ) (idx : ℕ) : Option (σ × ℤ) :=
  match d.X[idx]?, d.Y[idx]? with
  | some x, some y => some (x, y)
  | _, _ => none

/-- Modelled from the spec: preprocess_sequences_to_fixed_len (imported from
utils, missing from src/) truncates or pads every sequence to the fixed cap
length — abstracted here as a function fix on the sequence payload — and drops
the examples whose original index it reports in idx_removed, keeping the
remaining fixed-length sequences in their original order. -/
def preprocess_sequences_to_fixed_len {σ : Type*} (fix : σ → σ)
    (seq_data : List (σ × ℤ)) (idx_removed : List ℕ) : List σ :=
  ((seq_data.enum).filter (fun p => !(idx_removed.contains p.1))).map (fun p => fix p.2.1)

/-- Modelled from the spec: standardize_and_turn_tensor (imported from utils,
missing from src/) standardizes features row-wise, preserving the number and
order of rows; modelled as mapping a function over the rows. -/
def standardize_and_turn_tensor {σ : Type*} (st : σ → σ) (X : List σ) : List σ :=
  X.map st

/-- seq_data_to_dataset (lines 63-68): X is the preprocessed fixed-length
tensor, standardized; Y concatenates the labels x_y[1] of exactly the examples
whose enumeration index ix is not in idx_removed, in enumeration order. -/
def seq_data_to_dataset {σ : Type*} (fix st : σ → σ)
    (seq_data : List (σ × ℤ)) (idx_removed : List ℕ) : SeqDataset σ :=
  { X := standardize_and_turn_tensor st
          (preprocess_sequences_to_fixed_len fix seq_data idx_removed)
    Y := ((seq_data.enum).filter (fun p => !(idx_removed.contains p.1))).map
          (fun p => p.2.2) }

/-- The examples that preprocessing keeps: the enumerated examples whose
original index is not in idx_removed, in their original order. -/
def retainedExamples {σ : Type*} (seq_data : List (σ × ℤ)) (idx_removed : List ℕ) :
    List (ℕ × (σ × ℤ)) :=
  (seq_data.enum).filter (fun p => !(idx_removed.contains p.1))

/-- C5: Y holds exactly the labels of the examples whose original index is not
in idx_removed, in their original order; the dataset length equals the number
of retained examples, and the i-th item of the dataset pairs the (fixed-length,
standardized) sequence of the i-th retained example with that same example's
own label. -/
theorem c5_seq_data_to_dataset {σ : Type*} (fix st : σ → σ)
    (seq_data : List (σ × ℤ)) (idx_removed : List ℕ) :
    (seq_data_to_dataset fix st seq_data idx_removed).len =
      (retainedExamples seq_data idx_removed).length
    ∧ (∀ i : ℕ, ∀ r : ℕ × (σ × ℤ), (retainedExamples seq_data idx_removed)[i]? = some r →
        (seq_data_to_dataset fix st seq_data idx_removed).Y[i]? = some r.2.2)
    ∧ (∀ i : ℕ, ∀ r : ℕ × (σ × ℤ), (retainedExamples seq_data idx_removed)[i]? = some r →
        (seq_data_to_dataset fix st seq_data idx_removed).getitem i =
          some (st (fix r.2.1), r.2.2)) := by
  refine ⟨?_, ?_, ?_⟩
  · simp [seq_data_to_dataset, SeqDataset.len, retainedExamples]
  · intro i r hr
    simp only [seq_data_to_dataset, List.getElem?_map]
    rw [show ((seq_data.enum).filter (fun p => !(idx_removed.contains p.1)))[i]? =
        some r from hr]
    rfl
  · intro i r hr
    simp only [seq_data_to_dataset, SeqDataset.getitem, standardize_and_turn_tensor,
      preprocess_sequences_to_fixed_len, List.getElem?_map]
    rw [show ((seq_data.enum).filter (fun p => !(idx_removed.contains p.1)))[i]? =
        some r from hr]
    rfl

/-- Witness for C5: dataset [(10, 1), (20, 0), (30, 1)] with index 1 removed;
the retained examples are indices 0 and 2, and item 1 of the dataset pairs
sequence 30 with its own label 1. -/
theorem c5_seq_data_to_dataset_witness :
    (retainedExamples [((10 : ℕ), (1 : ℤ)), (20, 0), (30, 1)] [1])[1]? = some (2, (30, 1))
    ∧ (seq_data_to_dataset id id [((10 : ℕ), (1 : ℤ)), (20, 0), (30, 1)] [1]).getitem 1 =
        some (id (id 30), 1) :=
  ⟨rfl, (c5_seq_data_to_dataset id id [((10 : ℕ), (1 : ℤ)), (20, 0), (30, 1)] [1]).2.2
    1 (2, (30, 1)) rfl⟩

/-! ## LSTMClassifier configuration and training loss (lines 71-83, 132, 238-243) -/

structure LSTMClassifierCfg where
  input_size : ℕ
  seq_size : ℕ
  h_size : ℕ
  n_classes : ℕ
  n_lstm_layers : ℕ
  n_linear_layers_hidden : ℕ
  dropout : ℚ

/-- LSTMClassifier.__init__ (lines 72-83).  Keyword arguments a call site may
omit are modelled as Option, none meaning the signature default applies:
n_classes defaults to 2, n_lstm_layers to 1, n_linear_layers_hidden to 0 and
dropout to 0. -/
def mkLSTMClassifier (input_size seq_size h_size : ℕ) (n_classes : Option ℕ)
    (n_lstm_layers : Option ℕ) (n_linear_layers_hidden : Option ℕ)
    (dropout : Option ℚ) : LSTMClassifierCfg :=
  ⟨input_size, seq_size, h_size, n_classes.getD 2, n_lstm_layers.getD 1,
    n_linear_layers_hidden.getD 0, dropout.getD 0⟩

/-- The (in_features, out_features) shapes of the Linear layers of self.linear
(lines 80-82): n_linear_layers_hidden hidden pairs Linear(h_size, h_size)+ReLU
followed by the final Linear(h_size, n_classes). -/
def linearDims (m : LSTMClassifierCfg) : List (ℕ × ℕ) :=
  (List.replicate m.n_linear_layers_hidden (m.h_size, m.h_size)) ++
    [(m.h_size, m.n_classes)]

inductive LossReduction | mean | sum | noReduce
deriving DecidableEq

inductive LossKind | crossEntropy
deriving DecidableEq

structure LossCfg where
  kind : LossKind
  reduction : LossReduction

/-- loss_function = nn.CrossEntropyLoss(reduction='mean') (line 132). -/
def trainLossFunction : LossCfg := ⟨LossKind.crossEntropy, LossReduction.mean⟩

/-- The model construction of the grid-search driver (lines 238-243):
LSTMClassifier(input_size=11, seq_size=args.cap_len, h_size=args.hidden_size,
n_lstm_layers=args.num_lstm_layers, n_linear_layers_hidden=args.num_linear_layers - 1,
dropout=args.dropout).  No n_classes argument is passed, so the signature
default applies; this is the only construction site in the script. -/
def mainModel (cap_len hidden_size num_lstm_layers num_linear_layers : ℕ)
    (dropout : ℚ) : LSTMClassifierCfg :=
  mkLSTMClassifier 11 cap_len hidden_size none (some num_lstm_layers)
    (some (num_linear_layers - 1)) (some dropout)

/-- C7: for every hyperparameter setting, the classifier built by the script
has n_classes = 2 (the default, never overridden at the only construction
site), its final linear layer maps the hidden size to exactly 2 logits, and
the training loss is cross-entropy with mean reduction, applied to those
2-class logits. -/
theorem c7_binary_classifier (cap_len hidden_size num_lstm_layers
    num_linear_layers : ℕ) (dropout : ℚ) :
    (mainModel cap_len hidden_size num_lstm_layers num_linear_layers dropout).n_classes = 2
    ∧ (linearDims (mainModel cap_len hidden_size num_lstm_layers num_linear_layers
        dropout)).getLast? = some (hidden_size, 2)
    ∧ trainLossFunction.kind = LossKind.crossEntropy
    ∧ trainLossFunction.reduction = LossReduction.mean := by
  refine ⟨rfl, ?_, rfl, rfl⟩
  simp [linearDims, mainModel, mkLSTMClassifier]

/-! ## Training loop schedule (lstm_baseline.py lines 127-180)

global_step starts at 0 and is incremented once per training batch, directly
after the loss is logged; it is never reset between epochs.  The evaluation
block runs when global_step % 5 == 0 holds for the post-increment value, and
ends with model.train() (line 180).  Each epoch also begins with model.train()
(line 135).  The control flow is modelled as the list of events it emits. -/

inductive TrainEvent
  | trainStep (gs : ℕ)
  | evalPass (gs : ℕ)
  | toTrainMode
deriving DecidableEq

/-- The events of one iteration of the inner batch loop entered at the given
global_step: the training step (identified by its post-increment counter
value) followed, exactly when that counter is divisible by 5, by an evaluation
pass on the validation loader and the switch back to training mode. -/
def batchEvents (gs : ℕ) : List TrainEvent :=
  if (gs + 1) % 5 = 0 then
    [TrainEvent.trainStep (gs + 1), TrainEvent.evalPass (gs + 1),
      TrainEvent.toTrainMode]
  else [TrainEvent.trainStep (gs + 1)]

/-- The inner loop over the training batches of one epoch, threading
global_step; returns the events and the final global_step. -/
def batchLoop : ℕ → ℕ → List TrainEvent × ℕ
  | 0, gs => ([], gs)
  | b + 1, gs =>
    let rest := batchLoop b (gs + 1)
    (batchEvents gs ++ rest.1, rest.2)

/-- The outer loop over epochs (line 133): each epoch sets the model to
training mode (line 135) and runs the batch loop; global_step carries over. -/
def epochLoop : ℕ → ℕ → ℕ → List TrainEvent
  | 0, _, _ => []
  | e + 1, numBatches, gs =>
    let bl := batchLoop numBatches gs
    (TrainEvent.toTrainMode :: bl.1) ++ epochLoop e numBatches bl.2

/-- The full event trace of one train call: num_epochs epochs of numBatches
training batches each, starting from global_step = 0 (line 128). -/
def trainRun (num_epochs numBatches : ℕ) : List TrainEvent :=
  epochLoop num_epochs numBatches 0

/-- The post-increment global step at which an evaluation event happened. -/
def evalCounter : TrainEvent → Option ℕ
  | TrainEvent.evalPass gs => some gs
  | _ => none

/-- Checks that every evaluation event is immediately followed by the switch
of the model back to training mode. -/
def evalsFollowedByTrainMode : List TrainEvent → Bool
  | [] => true
  | TrainEvent.evalPass _ :: rest =>
    (match rest with
     | TrainEvent.toTrainMode :: _ => true
     | _ => false) && evalsFollowedByTrainMode rest
  | _ :: rest => evalsFollowedByTrainMode rest

theorem batchLoop_snd (b : ℕ) : ∀ gs : ℕ, (batchLoop b gs).2 = gs + b := by
  induction b with
  | zero => intro gs; simp [batchLoop]
  | succ b ih =>
    intro gs
    simp only [batchLoop, ih]
    omega

theorem batchEvents_filterMap (gs : ℕ) :
    (batchEvents gs).filterMap evalCounter =
      if (gs + 1) % 5 = 0 then [gs + 1] else [] := by
  by_cases h : (gs + 1) % 5 = 0 <;>
    simp [batchEvents, h, evalCounter, List.filterMap_cons]

theorem batchLoop_filterMap (b : ℕ) : ∀ gs : ℕ,
    (batchLoop b gs).1.filterMap evalCounter =
      (List.range' (gs + 1) b).filter (fun g => g % 5 = 0) := by
  induction b with
  | zero => intro gs; simp [batchLoop]
  | succ b ih =>
    intro gs
    simp only [batchLoop, List.filterMap_append, batchEvents_filterMap, ih,
      List.range'_succ, List.filter_cons]
    by_cases h : (gs + 1) % 5 = 0 <;> simp [h]

theorem epochLoop_filterMap (e : ℕ) (numBatches : ℕ) : ∀ gs : ℕ,
    (epochLoop e numBatches gs).filterMap evalCounter =
      (List.range' (gs + 1) (e * numBatches)).filter (fun g => g % 5 = 0) := by
  induction e with
  | zero => intro gs; simp [epochLoop]
  | succ e ih =>
    intro gs
    simp only [epochLoop, List.cons_append, List.filterMap_cons, evalCounter,
      List.filterMap_append, batchLoop_filterMap, ih, batchLoop_snd]
    rw [Nat.succ_mul,
      ← List.range'_append_1 (gs + 1) numBatches (e * numBatches),
      List.filter_append]
    rw [(by omega : gs + 1 + numBatches = gs + numBatches + 1)]

theorem evalsFollowed_batchEvents (gs : ℕ) (t : List TrainEvent) :
    evalsFollowedByTrainMode (batchEvents gs ++ t) =
      evalsFollowedByTrainMode t := by
  by_cases h : (gs + 1) % 5 = 0 <;>
    simp [batchEvents, h, evalsFollowedByTrainMode]

theorem evalsFollowed_batchLoop (b : ℕ) : ∀ gs : ℕ, ∀ t : List TrainEvent,
    evalsFollowedByTrainMode ((batchLoop b gs).1 ++ t) =
      evalsFollowedByTrainMode t := by
  induction b with
  | zero => intro gs t; simp [batchLoop]
  | succ b ih =>
    intro gs t
    simp only [batchLoop, List.append_assoc, evalsFollowed_batchEvents, ih]

theorem evalsFollowed_epochLoop (e : ℕ) (numBatches : ℕ) : ∀ gs : ℕ,
    evalsFollowedByTrainMode (epochLoop e numBatches gs) = true := by
  induction e with
  | zero => intro gs; simp [epochLoop, evalsFollowedByTrainMode]
  | succ e ih =>
    intro gs
    simp only [epochLoop, List.cons_append]
    rw [show evalsFollowedByTrainMode
        (TrainEvent.toTrainMode :: ((batchLoop numBatches gs).1 ++
          epochLoop e numBatches (batchLoop numBatches gs).2)) =
        evalsFollowedByTrainMode ((batchLoop numBatches gs).1 ++
          epochLoop e numBatches (batchLoop numBatches gs).2) from rfl]
    rw [evalsFollowed_batchLoop, ih]

/-- C4: in every training run, evaluation passes on the validation loader
happen exactly at the training steps whose post-increment global step counter
is divisible by 5 — after the 5th, 10th, 15th, ... training step counted
cumulatively across all epochs, in that order and at no other step — and
every evaluation pass is immediately followed by switching the model back to
training mode. -/
theorem c4_periodic_evaluation (num_epochs numBatches : ℕ) :
    (trainRun num_epochs numBatches).filterMap evalCounter =
      (List.range' 1 (num_epochs * numBatches)).filter (fun g => g % 5 = 0)
    ∧ evalsFollowedByTrainMode (trainRun num_epochs numBatches) = true := by
  constructor
  · have h := epochLoop_filterMap num_epochs numBatches 0
    simpa using h
  · exact evalsFollowed_epochLoop num_epochs numBatches 0

/-! ## Filesystem side effects of train (lstm_baseline.py lines 114-192)

train creates the log directory logs/<exp_name> (lines 116-118) and, when the
checkpoint file does not already exist, the checkpoint directory
checkpoints/<exp_name> (lines 122-126), each creation guarded by an existence
check.  The only checkpoint-saving statement, torch.save(checkpoint,
checkpoint_path) at line 189, is commented out, together with the dictionary
that would build the checkpoint (lines 182-188); the evaluation block performs
no filesystem write at all.  The filesystem is modelled as the sets of
existing directories and files; os.makedirs raises FileExistsError when the
directory already exists, which the Except models. -/

structure FS where
  dirs : List String
  files : List String
deriving DecidableEq

/-- os.makedirs: creates the directory, raising FileExistsError when it
already exists. -/
def makedirs (fs : FS) (p : String) : Except String FS :=
  if p ∈ fs.dirs then Except.error "FileExistsError"
  else Except.ok { dirs := p :: fs.dirs, files := fs.files }

/-- One iteration of the evaluation block as far as the filesystem is
concerned: it writes nothing, because the torch.save call (line 189) and the
checkpoint dictionary (lines 182-188) are commented out. -/
def evalBlockFS (fs : FS) : FS := fs

/-- The evaluation blocks executed during the whole run. -/
def evalBlocksFS : ℕ → FS → FS
  | 0, fs => fs
  | n + 1, fs => evalBlocksFS n (evalBlockFS fs)

/-- The filesystem effect of one train call with the given exp_name, for a run
whose training loop executes numEvals evaluation blocks (lines 114-192):
the guarded creation of logs/<exp_name>, the guarded creation of
checkpoints/<exp_name> (attempted only when checkpoints/<exp_name>/model.pt
does not already exist), then the training loop. -/
def trainFS (exp_name : String) (numEvals : ℕ) (fs : FS) : Except String FS :=
  let log_dir := "logs/" ++ exp_name
  let step1 : Except String FS :=
    if log_dir ∈ fs.dirs then Except.ok fs else makedirs fs log_dir
  match step1 with
  | Except.error e => Except.error e
  | Except.ok fs1 =>
    let checkpoint_dir := "checkpoints/" ++ exp_name
    let checkpoint_path := checkpoint_dir ++ "/model.pt"
    let step2 : Except String FS :=
      if checkpoint_path ∈ fs1.files then Except.ok fs1
      else if checkpoint_dir ∈ fs1.dirs then Except.ok fs1
      else makedirs fs1 checkpoint_dir
    match step2 with
    | Except.error e => Except.error e
    | Except.ok fs2 => Except.ok (evalBlocksFS numEvals fs2)

theorem evalBlocksFS_id (n : ℕ) : ∀ fs : FS, evalBlocksFS n fs = fs := by
  induction n with
  | zero => intro fs; rfl
  | succ n ih => intro fs; exact ih fs

/-- Counterexample to C6: running train with the default experiment name on an
empty filesystem, with 3 evaluations occurring during the run, creates the two
directories but ends with no file at all — in particular the checkpoint file
checkpoints/LSTM_default/model.pt is never written, contradicting the claim
that it is written after each evaluation. -/
theorem c6_checkpoint_never_written :
    trainFS "LSTM_default" 3 ⟨[], []⟩ =
      Except.ok ⟨["checkpoints/LSTM_default", "logs/LSTM_default"], []⟩
    ∧ "checkpoints/LSTM_default/model.pt" ∉
        (FS.mk ["checkpoints/LSTM_default", "logs/LSTM_default"] []).files := by
  constructor
  · rfl
  · simp

/-- C6 (amended): every call of train ensures that logs/<exp_name> exists, and
ensures that checkpoints/<exp_name> exists whenever the checkpoint file
checkpoints/<exp_name>/model.pt does not already exist; each creation is
guarded by an existence check, so a pre-existing directory is never re-created
(makedirs, which fails on an existing directory, is only reached when the
existence check failed) and the call never fails; but no file is ever written
— the filesystem's files are unchanged, because the torch.save call is
commented out. -/
theorem c6_train_fs_effects (exp_name : String) (numEvals : ℕ) (fs : FS) :
    ∃ fs2 : FS, trainFS exp_name numEvals fs = Except.ok fs2
      ∧ ("logs/" ++ exp_name) ∈ fs2.dirs
      ∧ (("checkpoints/" ++ exp_name ++ "/model.pt") ∉ fs.files →
          ("checkpoints/" ++ exp_name) ∈ fs2.dirs)
      ∧ fs2.files = fs.files
      ∧ (∀ d : String, d ∈ fs.dirs → d ∈ fs2.dirs) := by
  classical
  have h12 : ("checkpoints/" : String).length = 12 := rfl
  have h5 : ("logs/" : String).length = 5 := rfl
  have hne : ("checkpoints/" ++ exp_name) ≠ ("logs/" ++ exp_name) := by
    intro heq
    have hlen := congrArg String.length heq
    rw [String.length_append, String.length_append, h12, h5] at hlen
    omega
  by_cases h1 : ("logs/" ++ exp_name) ∈ fs.dirs
  · by_cases h2 : ("checkpoints/" ++ exp_name ++ "/model.pt") ∈ fs.files
    · exact ⟨fs, by simp [trainFS, h1, h2, evalBlocksFS_id], h1,
        fun hc => absurd h2 hc, rfl, fun d hd => hd⟩
    · by_cases h3 : ("checkpoints/" ++ exp_name) ∈ fs.dirs
      · exact ⟨fs, by simp [trainFS, h1, h2, h3, evalBlocksFS_id], h1,
          fun _ => h3, rfl, fun d hd => hd⟩
      · refine ⟨FS.mk (("checkpoints/" ++ exp_name) :: fs.dirs) fs.files,
          by simp [trainFS, h1, h2, h3, makedirs, evalBlocksFS_id],
          List.mem_cons_of_mem _ h1, fun _ => List.mem_cons_self _ _, rfl,
          fun d hd => List.mem_cons_of_mem _ hd⟩
  · by_cases h2 : ("checkpoints/" ++ exp_name ++ "/model.pt") ∈ fs.files
    · exact ⟨FS.mk (("logs/" ++ exp_name) :: fs.dirs) fs.files,
        by simp [trainFS, h1, h2, makedirs, evalBlocksFS_id],
        List.mem_cons_self _ _, fun hc => absurd h2 hc, rfl,
        fun d hd => List.mem_cons_of_mem _ hd⟩
    · by_cases h3 : ("checkpoints/" ++ exp_name) ∈ fs.dirs
      · exact ⟨FS.mk (("logs/" ++ exp_name) :: fs.dirs) fs.files,
          by simp [trainFS, h1, h2, h3, makedirs, evalBlocksFS_id, List.mem_cons],
          List.mem_cons_self _ _, fun _ => List.mem_cons_of_mem _ h3, rfl,
          fun d hd => List.mem_cons_of_mem _ hd⟩
      · exact ⟨FS.mk (("checkpoints/" ++ exp_name) ::
            ("logs/" ++ exp_name) :: fs.dirs) fs.files,
          by simp [trainFS, h1, h2, h3, hne, makedirs, evalBlocksFS_id,
            List.mem_cons],
          List.mem_cons_of_mem _ (List.mem_cons_self _ _),
          fun _ => List.mem_cons_self _ _, rfl,
          fun d hd => List.mem_cons_of_mem _ (List.mem_cons_of_mem _ hd)⟩

/-- Witness for C6 (amended) on an empty filesystem with one evaluation. -/
theorem c6_train_fs_effects_witness :
    ∃ fs2 : FS, trainFS "LSTM_default" 1 ⟨[], []⟩ = Except.ok fs2
      ∧ ("logs/" ++ "LSTM_default") ∈ fs2.dirs
      ∧ (("checkpoints/" ++ "LSTM_default" ++ "/model.pt") ∉ (FS.mk [] []).files →
          ("checkpoints/" ++ "LSTM_default") ∈ fs2.dirs)
      ∧ fs2.files = (FS.mk [] []).files
      ∧ (∀ d : String, d ∈ (FS.mk [] []).dirs → d ∈ fs2.dirs) :=
  c6_train_fs_effects "LSTM_default" 1 ⟨[], []⟩

/-! ## Rolling accuracy tracking in train (lstm_baseline.py lines 129-177, 192)

accuracies = np.zeros(5) (line 129) and max_running_mean = 0. (line 130).  At
each evaluation point the window is shifted left by one and the newest
accuracy appended (line 173: accuracies = np.concatenate([accuracies[1:],
[acc]])); when accuracies.mean() > max_running_mean, max_running_mean becomes
that mean (lines 176-177); train returns max_running_mean (line 192).  Each
accuracy acc = correct / n_samples lies in [0, 1]; a run is abstracted by the
list of accuracies observed at its evaluation points, in order. -/

/-- The initial rolling window np.zeros(5) (line 129). -/
def accWindowInit : List ℚ := [0, 0, 0, 0, 0]

/-- np.concatenate([accuracies[1:], [acc]]) (line 173). -/
def windowPush (w : List ℚ) (a : ℚ) : List ℚ := w.drop 1 ++ [a]

/-- np.mean of the window. -/
def windowMean (w : List ℚ) : ℚ := w.sum / (w.length : ℚ)

/-- The accuracy-tracking loop of train over the accuracies of the successive
evaluation points, threading the rolling window and max_running_mean
(lines 173-177). -/
def accLoop : List ℚ → List ℚ → ℚ → ℚ
  | [], _, m => m
  | a :: rest, w, m =>
    accLoop rest (windowPush w a)
      (if m < windowMean (windowPush w a) then windowMean (windowPush w a) else m)

/-- The value train returns for a run with the given evaluation accuracies:
max_running_mean starting from the all-zero window and 0 (lines 129-130, 192). -/
def trainMaxRunningMean (accs : List ℚ) : ℚ := accLoop accs accWindowInit 0

/-- The window means observed at the successive evaluation points, starting
from window w. -/
def runningMeans : List ℚ → List ℚ → List ℚ
  | [], _ => []
  | a :: rest, w =>
    windowMean (windowPush w a) :: runningMeans rest (windowPush w a)

/-- The window means at the evaluation points of a run. -/
def evalMeans (accs : List ℚ) : List ℚ := runningMeans accs accWindowInit

/-- The rolling window after the first k evaluation points of the run. -/
def windowAfter (accs : List ℚ) (k : ℕ) : List ℚ :=
  (accs.take k).foldl windowPush accWindowInit

theorem ite_lt_eq_max (m μ : ℚ) : (if m < μ then μ else m) = max m μ := by
  rcases le_or_lt μ m with hle | hlt
  · rw [if_neg (not_lt.mpr hle), max_eq_left hle]
  · rw [if_pos hlt, max_eq_right hlt.le]

theorem accLoop_eq_foldl_max (accs : List ℚ) : ∀ w m,
    accLoop accs w m = (runningMeans accs w).foldl max m := by
  induction accs with
  | nil => intro w m; rfl
  | cons a rest ih =>
    intro w m
    rw [accLoop, runningMeans, List.foldl_cons, ite_lt_eq_max, ih]

theorem le_foldl_max (l : List ℚ) : ∀ m : ℚ, m ≤ l.foldl max m := by
  induction l with
  | nil => intro m; exact le_refl m
  | cons a l ih =>
    intro m
    exact le_trans (le_max_left m a) (ih (max m a))

theorem mem_le_foldl_max (l : List ℚ) : ∀ m : ℚ, ∀ x ∈ l, x ≤ l.foldl max m := by
  induction l with
  | nil => intro m x hx; simp at hx
  | cons a l ih =>
    intro m x hx
    rcases List.mem_cons.mp hx with rfl | hx
    · exact le_trans (le_max_right m x) (le_foldl_max l (max m x))
    · exact ih (max m a) x hx

theorem foldl_max_mem (l : List ℚ) : ∀ m : ℚ,
    l.foldl max m = m ∨ l.foldl max m ∈ l := by
  induction l with
  | nil => intro m; exact Or.inl rfl
  | cons a l ih =>
    intro m
    rcases ih (max m a) with h | h
    · rcases max_choice m a with h2 | h2
      · exact Or.inl (by rw [List.foldl_cons, h, h2])
      · refine Or.inr ?_
        rw [List.foldl_cons, h, h2]
        exact List.mem_cons_self a l
    · exact Or.inr (List.mem_cons_of_mem a h)

theorem foldl_max_le (l : List ℚ) : ∀ m c : ℚ, m ≤ c → (∀ x ∈ l, x ≤ c) →
    l.foldl max m ≤ c := by
  induction l with
  | nil => intro m c hm _; exact hm
  | cons a l ih =>
    intro m c hm hl
    rw [List.foldl_cons]
    exact ih (max m a) c (max_le hm (hl a (List.mem_cons_self a l)))
      (fun x hx => hl x (List.mem_cons_of_mem a hx))

theorem foldl_max_eq_self (l : List ℚ) (m : ℚ) (h : ∀ x ∈ l, x ≤ m) :
    l.foldl max m = m :=
  le_antisymm (foldl_max_le l m m le_rfl h) (le_foldl_max l m)

theorem runningMeans_take (accs : List ℚ) : ∀ k : ℕ, ∀ w : List ℚ,
    runningMeans (accs.take k) w = (runningMeans accs w).take k := by
  induction accs with
  | nil => intro k w; simp [runningMeans]
  | cons a rest ih =>
    intro k w
    cases k with
    | zero => simp [runningMeans]
    | succ k =>
      rw [List.take_succ_cons, runningMeans, runningMeans, ih, List.take_succ_cons]

theorem foldl_max_take_le (l : List ℚ) : ∀ k : ℕ, ∀ m : ℚ,
    (l.take k).foldl max m ≤ l.foldl max m := by
  induction l with
  | nil => intro k m; simp
  | cons a l ih =>
    intro k m
    cases k with
    | zero =>
      simp only [List.take_zero, List.foldl_nil, List.foldl_cons]
      exact le_trans (le_max_left m a) (le_foldl_max l (max m a))
    | succ k =>
      rw [List.take_succ_cons, List.foldl_cons, List.foldl_cons]
      exact ih k (max m a)

theorem windowPush_length (w : List ℚ) (a : ℚ) (h : w.length = 5) :
    (windowPush w a).length = 5 := by
  simp [windowPush, h]

theorem windowPush_mem (w : List ℚ) (a : ℚ) (hw : ∀ x ∈ w, 0 ≤ x ∧ x ≤ 1)
    (ha : 0 ≤ a ∧ a ≤ 1) : ∀ x ∈ windowPush w a, 0 ≤ x ∧ x ≤ 1 := by
  intro x hx
  rcases List.mem_append.mp hx with hx | hx
  · exact hw x (List.mem_of_mem_drop hx)
  · rw [List.mem_singleton.mp hx]
    exact ha

theorem sum_le_length_rat (l : List ℚ) (h : ∀ x ∈ l, x ≤ 1) :
    l.sum ≤ (l.length : ℚ) := by
  induction l with
  | nil => simp
  | cons a l ih =>
    simp only [List.sum_cons, List.length_cons]
    push_cast
    have hrest := ih (fun x hx => h x (List.mem_cons_of_mem a hx))
    have ha := h a (List.mem_cons_self a l)
    linarith

theorem windowMean_bounds (w : List ℚ) (hlen : w.length = 5)
    (hw : ∀ x ∈ w, 0 ≤ x ∧ x ≤ 1) : 0 ≤ windowMean w ∧ windowMean w ≤ 1 := by
  have hs0 : 0 ≤ w.sum := List.sum_nonneg (fun x hx => (hw x hx).1)
  have hs1 : w.sum ≤ (w.length : ℚ) := sum_le_length_rat w (fun x hx => (hw x hx).2)
  rw [windowMean, hlen]
  have h5 : ((5 : ℕ) : ℚ) = 5 := by norm_num
  rw [h5]
  constructor
  · positivity
  · rw [div_le_one (by norm_num)]
    calc w.sum ≤ (w.length : ℚ) := hs1
    _ = 5 := by rw [hlen]; norm_num

theorem runningMeans_bounds (accs : List ℚ) : ∀ w : List ℚ, w.length = 5 →
    (∀ x ∈ w, 0 ≤ x ∧ x ≤ 1) → (∀ a ∈ accs, 0 ≤ a ∧ a ≤ 1) →
    ∀ μ ∈ runningMeans accs w, 0 ≤ μ ∧ μ ≤ 1 := by
  induction accs with
  | nil => intro w _ _ _ μ hμ; simp [runningMeans] at hμ
  | cons a rest ih =>
    intro w hlen hw hacc μ hμ
    have ha := hacc a (List.mem_cons_self a rest)
    have hw2 := windowPush_mem w a hw ha
    have hlen2 := windowPush_length w a hlen
    rw [runningMeans] at hμ
    rcases List.mem_cons.mp hμ with rfl | hμ
    · exact windowMean_bounds _ hlen2 hw2
    · exact ih (windowPush w a) hlen2 hw2
        (fun b hb => hacc b (List.mem_cons_of_mem a hb)) μ hμ

theorem runningMeans_length (accs : List ℚ) : ∀ w : List ℚ,
    (runningMeans accs w).length = accs.length := by
  induction accs with
  | nil => intro w; rfl
  | cons a rest ih => intro w; simp [runningMeans, ih]

theorem foldl_windowPush_eq (l : List ℚ) : ∀ w : List ℚ, w.length = 5 →
    l.foldl windowPush w = (w ++ l).drop l.length := by
  induction l with
  | nil => intro w _; simp
  | cons a l ih =>
    intro w hw
    cases w with
    | nil => simp at hw
    | cons b w2 =>
      rw [List.foldl_cons, ih (windowPush (b :: w2) a) (windowPush_length _ a hw)]
      simp only [windowPush, List.drop_one, List.tail_cons, List.append_assoc,
        List.singleton_append, List.cons_append, List.length_cons,
        List.drop_succ_cons, List.drop_zero, List.nil_append]

/-- C1: train returns max_running_mean; whenever at least one evaluation
happened it equals the maximum, over all evaluation points of the run, of the
arithmetic mean of the rolling 5-window; the window starts as five zeros and
at each evaluation is shifted left by one with the newest accuracy appended,
so after k evaluations it holds the last five entries of the zero-padded
accuracy prefix; max_running_mean is non-decreasing along the run and always
satisfies 0 <= max_running_mean <= 1. -/
theorem c1_max_running_mean (accs : List ℚ)
    (hb : ∀ a ∈ accs, 0 ≤ a ∧ a ≤ 1) :
    (accs ≠ [] →
      trainMaxRunningMean accs ∈ evalMeans accs
      ∧ ∀ μ ∈ evalMeans accs, μ ≤ trainMaxRunningMean accs)
    ∧ (∀ k : ℕ, trainMaxRunningMean (accs.take k) ≤ trainMaxRunningMean accs)
    ∧ (∀ k : ℕ, windowAfter accs k =
        (accWindowInit ++ accs.take k).drop (accs.take k).length)
    ∧ 0 ≤ trainMaxRunningMean accs ∧ trainMaxRunningMean accs ≤ 1 := by
  have hwin : ∀ x ∈ accWindowInit, 0 ≤ x ∧ x ≤ 1 := by
    intro x hx
    simp [accWindowInit] at hx
    rw [hx]
    norm_num
  have hlen : accWindowInit.length = 5 := rfl
  have hbounds := runningMeans_bounds accs accWindowInit hlen hwin hb
  have hfold : trainMaxRunningMean accs = (evalMeans accs).foldl max 0 :=
    accLoop_eq_foldl_max accs accWindowInit 0
  refine ⟨?_, ?_, ?_, ?_, ?_⟩
  · intro hne
    constructor
    · rcases foldl_max_mem (evalMeans accs) 0 with h0 | hmem
      · have hlen2 : (evalMeans accs).length = accs.length :=
          runningMeans_length accs accWindowInit
        have hne2 : evalMeans accs ≠ [] := by
          intro hcon
          rw [hcon] at hlen2
          exact hne (List.length_eq_zero.mp hlen2.symm)
        obtain ⟨μ0, ms, hms⟩ := List.exists_cons_of_ne_nil hne2
        have hμ0 : μ0 ∈ evalMeans accs := by rw [hms]; exact List.mem_cons_self μ0 ms
        have hub : μ0 ≤ 0 := by
          have := mem_le_foldl_max (evalMeans accs) 0 μ0 hμ0
          rw [h0] at this
          exact this
        have hlb : 0 ≤ μ0 := (hbounds μ0 hμ0).1
        have : μ0 = 0 := le_antisymm hub hlb
        rw [hfold, h0, ← this]
        exact hμ0
      · rw [hfold]; exact hmem
    · intro μ hμ
      rw [hfold]
      exact mem_le_foldl_max (evalMeans accs) 0 μ hμ
  · intro k
    have h1 : trainMaxRunningMean (accs.take k) =
        ((evalMeans accs).take k).foldl max 0 := by
      rw [trainMaxRunningMean, accLoop_eq_foldl_max, evalMeans, ← runningMeans_take]
    rw [h1, hfold]
    exact foldl_max_take_le (evalMeans accs) k 0
  · intro k
    exact foldl_windowPush_eq (accs.take k) accWindowInit hlen
  · rw [hfold]
    exact le_foldl_max (evalMeans accs) 0
  · rw [hfold]
    exact foldl_max_le (evalMeans accs) 0 1 (by norm_num)
      (fun μ hμ => (hbounds μ hμ).2)

/-- Witness for C1 at the concrete accuracy sequence [1/2, 1]. -/
theorem c1_max_running_mean_witness :
    (∀ a ∈ ([1/2, 1] : List ℚ), 0 ≤ a ∧ a ≤ 1)
    ∧ ([1/2, 1] : List ℚ) ≠ []
    ∧ trainMaxRunningMean [1/2, 1] ∈ evalMeans [1/2, 1]
    ∧ (∀ μ ∈ evalMeans ([1/2, 1] : List ℚ), μ ≤ trainMaxRunningMean [1/2, 1])
    ∧ 0 ≤ trainMaxRunningMean [1/2, 1] ∧ trainMaxRunningMean [1/2, 1] ≤ 1 :=
  ⟨by norm_num, by simp,
    ((c1_max_running_mean [1/2, 1] (by norm_num)).1 (by simp)).1,
    ((c1_max_running_mean [1/2, 1] (by norm_num)).1 (by simp)).2,
    (c1_max_running_mean [1/2, 1] (by norm_num)).2.2.2.1,
    (c1_max_running_mean [1/2, 1] (by norm_num)).2.2.2.2⟩

/-! ## Grid-search best-run selection (lstm_baseline.py lines 221-256)

max_perf starts at 0. and best_args at [] (lines 223-224); after each run,
if perf > max_perf then max_perf = perf and best_args = [lr, batch_size,
hidden_size] (lines 251-253). -/

/-- best_args as the script stores it: [lr, batch_size, hidden_size]. -/
def argsList (c : ℚ × ℕ × ℕ) : List ℚ := [c.1, (c.2.1 : ℚ), (c.2.2 : ℚ)]

/-- The driver's selection loop over the runs, each run pairing its
hyperparameter triple with the perf value train returned, threading
(max_perf, best_args) (lines 251-253). -/
def gridSelect : ℚ → List ℚ → List ((ℚ × ℕ × ℕ) × ℚ) → ℚ × List ℚ
  | mp, ba, [] => (mp, ba)
  | mp, ba, r :: rs =>
    if mp < r.2 then gridSelect r.2 (argsList r.1) rs else gridSelect mp ba rs

/-- The final (max_perf, best_args) of the grid search whose 24 runs produced
the given perf values, paired in iteration order with the visited
hyperparameter triples. -/
def gridSearchResult (perfs : List ℚ) : ℚ × List ℚ :=
  gridSelect 0 [] (gridCombos.zip perfs)

theorem gridCombos_length24 : gridCombos.length = 24 := by
  simp [gridCombos, lrs, batch_sizes, hidden_sizes, List.range']

theorem gridSelect_fst (rs : List ((ℚ × ℕ × ℕ) × ℚ)) : ∀ mp ba,
    (gridSelect mp ba rs).1 = (rs.map Prod.snd).foldl max mp := by
  induction rs with
  | nil => intro mp ba; rfl
  | cons r rs ih =>
    intro mp ba
    rw [gridSelect, List.map_cons, List.foldl_cons]
    by_cases h : mp < r.2
    · rw [if_pos h, ih, max_eq_right h.le]
    · rw [if_neg h, ih, max_eq_left (not_lt.mp h)]

theorem gridSelect_no_update (rs : List ((ℚ × ℕ × ℕ) × ℚ)) : ∀ mp ba,
    (∀ p ∈ rs.map Prod.snd, p ≤ mp) → gridSelect mp ba rs = (mp, ba) := by
  induction rs with
  | nil => intro mp ba _; rfl
  | cons r rs ih =>
    intro mp ba h
    have hr : r.2 ≤ mp := h r.2 (by simp)
    rw [gridSelect, if_neg (not_lt.mpr hr)]
    exact ih mp ba (fun p hp => h p (by simp [hp]))

theorem gridSelect_best (rs : List ((ℚ × ℕ × ℕ) × ℚ)) : ∀ mp ba,
    (∃ p ∈ rs.map Prod.snd, mp < p) →
    ∃ i : ℕ, ∃ r : (ℚ × ℕ × ℕ) × ℚ, rs[i]? = some r
      ∧ r.2 = (rs.map Prod.snd).foldl max mp
      ∧ (∀ j < i, ∀ rj : (ℚ × ℕ × ℕ) × ℚ, rs[j]? = some rj → rj.2 < r.2)
      ∧ mp < r.2
      ∧ (gridSelect mp ba rs).2 = argsList r.1 := by
  induction rs with
  | nil =>
    intro mp ba hex
    simp at hex
  | cons r rs ih =>
    intro mp ba hex
    by_cases h : mp < r.2
    · by_cases h2 : ∃ p ∈ rs.map Prod.snd, r.2 < p
      · obtain ⟨i, ri, hget, hmax, hearlier, hmp, hsel⟩ := ih r.2 (argsList r.1) h2
        refine ⟨i + 1, ri, ?_, ?_, ?_, ?_, ?_⟩
        · simpa using hget
        · rw [List.map_cons, List.foldl_cons, max_eq_right h.le]
          exact hmax
        · intro j hj rj hrj
          cases j with
          | zero =>
            simp only [List.getElem?_cons_zero, Option.some.injEq] at hrj
            rw [← hrj]
            exact hmp
          | succ j =>
            simp only [List.getElem?_cons_succ] at hrj
            exact hearlier j (by omega) rj hrj
        · exact lt_trans h hmp
        · rw [gridSelect, if_pos h]
          exact hsel
      · push_neg at h2
        refine ⟨0, r, by simp, ?_, ?_, h, ?_⟩
        · rw [List.map_cons, List.foldl_cons, max_eq_right h.le,
            foldl_max_eq_self _ _ h2]
        · intro j hj rj hrj
          exact absurd hj (Nat.not_lt_zero j)
        · rw [gridSelect, if_pos h,
            gridSelect_no_update rs r.2 (argsList r.1) h2]
    · have hex2 : ∃ p ∈ rs.map Prod.snd, mp < p := by
        obtain ⟨p, hp, hmp⟩ := hex
        rw [List.map_cons] at hp
        rcases List.mem_cons.mp hp with rfl | hp
        · exact absurd hmp h
        · exact ⟨p, hp, hmp⟩
      obtain ⟨i, ri, hget, hmax, hearlier, hmp, hsel⟩ := ih mp ba hex2
      refine ⟨i + 1, ri, ?_, ?_, ?_, hmp, ?_⟩
      · simpa using hget
      · rw [List.map_cons, List.foldl_cons, max_eq_left (not_lt.mp h)]
        exact hmax
      · intro j hj rj hrj
        cases j with
        | zero =>
          simp only [List.getElem?_cons_zero, Option.some.injEq] at hrj
          rw [← hrj]
          exact lt_of_le_of_lt (not_lt.mp h) hmp
        | succ j =>
          simp only [List.getElem?_cons_succ] at hrj
          exact hearlier j (by omega) rj hrj
      · rw [gridSelect, if_neg h]
        exact hsel

/-- C3: after the grid search, max_perf is the maximum of the perf values of
the 24 runs when some perf is positive, and 0 when every perf is <= 0 (in
which case best_args stays []); when some perf is positive, best_args is the
triple [lr, batch_size, hidden_size] of the first run, in iteration order,
whose perf strictly exceeds every earlier run's perf and equals max_perf. -/
theorem c3_grid_best_selection (perfs : List ℚ) (hlen : perfs.length = 24) :
    ((∀ p ∈ perfs, p ≤ 0) → gridSearchResult perfs = (0, []))
    ∧ (gridSearchResult perfs).1 = perfs.foldl max 0
    ∧ ((∃ p ∈ perfs, 0 < p) →
        (gridSearchResult perfs).1 ∈ perfs
        ∧ (∀ p ∈ perfs, p ≤ (gridSearchResult perfs).1)
        ∧ ∃ i : ℕ, ∃ r : (ℚ × ℕ × ℕ) × ℚ, (gridCombos.zip perfs)[i]? = some r
            ∧ r.2 = (gridSearchResult perfs).1
            ∧ (∀ j < i, ∀ rj : (ℚ × ℕ × ℕ) × ℚ,
                (gridCombos.zip perfs)[j]? = some rj → rj.2 < r.2)
            ∧ (gridSearchResult perfs).2 = argsList r.1
            ∧ (∀ i2 : ℕ, ∀ r2 : (ℚ × ℕ × ℕ) × ℚ,
                (gridCombos.zip perfs)[i2]? = some r2 →
                r2.2 = (gridSearchResult perfs).1 →
                (∀ j < i2, ∀ rj : (ℚ × ℕ × ℕ) × ℚ,
                  (gridCombos.zip perfs)[j]? = some rj → rj.2 < r2.2) →
                i ≤ i2)) := by
  have hzip : (gridCombos.zip perfs).map Prod.snd = perfs :=
    List.map_snd_zip gridCombos perfs (by rw [hlen, gridCombos_length24])
  refine ⟨?_, ?_, ?_⟩
  · intro hall
    rw [gridSearchResult]
    exact gridSelect_no_update _ 0 [] (by rw [hzip]; exact hall)
  · rw [gridSearchResult, gridSelect_fst, hzip]
  · intro hex
    have hex2 : ∃ p ∈ (gridCombos.zip perfs).map Prod.snd, (0 : ℚ) < p := by
      rw [hzip]; exact hex
    obtain ⟨i, r, hget, hmax, hearlier, hmp, hsel⟩ :=
      gridSelect_best (gridCombos.zip perfs) 0 [] hex2
    have hfst : (gridSearchResult perfs).1 = perfs.foldl max 0 := by
      rw [gridSearchResult, gridSelect_fst, hzip]
    have hrmax : r.2 = (gridSearchResult perfs).1 := by
      rw [hfst, hmax, hzip]
    refine ⟨?_, ?_, i, r, hget, hrmax, hearlier, hsel, ?_⟩
    · rcases foldl_max_mem perfs 0 with h0 | hmem
      · exfalso
        obtain ⟨p, hp, hppos⟩ := hex
        have := mem_le_foldl_max perfs 0 p hp
        rw [h0] at this
        exact absurd (lt_of_lt_of_le hppos this) (lt_irrefl 0)
      · rw [hfst]; exact hmem
    · intro p hp
      rw [hfst]
      exact mem_le_foldl_max perfs 0 p hp
    · intro i2 r2 hget2 hmax2 _
      by_contra hcon
      have hlt : i2 < i := by omega
      have := hearlier i2 hlt r2 hget2
      rw [hmax2, hrmax] at this
      exact absurd this (lt_irrefl _)

/-- Witness for C3 at a concrete perf assignment for the 24 runs. -/
theorem c3_grid_best_selection_witness :
    ([0, 0, 0, 1/2, 0, 0, 0, 0, 3/4, 0, 0, 0, 0, 0, 0, 0, 0, 0, 0, 0, 0, 0,
        0, 0] : List ℚ).length = 24
    ∧ (gridSearchResult [0, 0, 0, 1/2, 0, 0, 0, 0, 3/4, 0, 0, 0, 0, 0, 0, 0,
        0, 0, 0, 0, 0, 0, 0, 0]).1 =
      ([0, 0, 0, 1/2, 0, 0, 0, 0, 3/4, 0, 0, 0, 0, 0, 0, 0, 0, 0, 0, 0, 0, 0,
        0, 0] : List ℚ).foldl max 0 :=
  ⟨rfl, (c3_grid_best_selection [0, 0, 0, 1/2, 0, 0, 0, 0, 3/4, 0, 0, 0, 0, 0,
    0, 0, 0, 0, 0, 0, 0, 0, 0, 0] rfl).2.1⟩

/-! ## LSTMClassifier.forward (lstm_baseline.py lines 85-93)

forward computes out, (_, _) = self.lstm(seq) and returns
self.linear(out.mean(1)).  Per the framework's contract for a batch_first
LSTM, for an input of shape (B, L, input_size) the tensor out holds the LAST
LSTM layer's hidden vector at every time step — shape (B, L, hidden_size)
regardless of how many LSTM layers are stacked — so the embedding takes the
LSTM as an abstract function constrained only by that shape contract, and the
self.linear head as an abstract function mapping hidden_size vectors to
n_classes vectors.  Tensors are nested lists of rationals.  The docstring of
forward (line 88) instead promises a concatenation of the last hidden states
over the LSTM layers, of width hidden_size * num layers; the claim records
that the code does not do that. -/

/-- A (rows x cols) shape predicate for a 2-d tensor. -/
def isMatrix (rows cols : ℕ) (t : List (List ℚ)) : Prop :=
  t.length = rows ∧ ∀ r ∈ t, r.length = cols

/-- A (b x l x f) shape predicate for a 3-d tensor. -/
def isTensor3 (b l f : ℕ) (t : List (List (List ℚ))) : Prop :=
  t.length = b ∧ ∀ ex ∈ t, isMatrix l f ex

/-- torch mean over dimension 1, for one example of the batch: the
coordinatewise arithmetic mean of its time-step row vectors. -/
def meanDim1 (rows : List (List ℚ)) : List ℚ :=
  match rows with
  | [] => []
  | r :: tl =>
    (List.range r.length).map
      (fun k => ((r :: tl).map (fun row => row.getD k 0)).sum /
        (((r :: tl).length : ℕ) : ℚ))

/-- A linear layer y = W x + bias applied to one vector. -/
def linearApply (W : List (List ℚ)) (bias : List ℚ) (v : List ℚ) : List ℚ :=
  (W.map (fun wrow => ((wrow.zip v).map (fun p => p.1 * p.2)).sum)).zipWith
    (fun y c => y + c) bias

theorem linearApply_length (W : List (List ℚ)) (bias : List ℚ) (v : List ℚ) :
    (linearApply W bias v).length = min W.length bias.length := by
  simp [linearApply]

/-- LSTMClassifier.forward (lines 85-93): out, (_, _) = self.lstm(seq);
return self.linear(out.mean(1)) — the head applied, example by example, to
the mean over the time dimension of the last LSTM layer's output sequence. -/
def forward (lstm : List (List (List ℚ)) → List (List (List ℚ)))
    (head : List ℚ → List ℚ) (seq : List (List (List ℚ))) : List (List ℚ) :=
  (lstm seq).map (fun ex => head (meanDim1 ex))

/-- argparse default --num_lstm_layers 2 (line 20). -/
def default_num_lstm_layers : ℕ := 2

theorem meanDim1_length (L h : ℕ) (hL : 1 ≤ L) (ex : List (List ℚ))
    (hex : isMatrix L h ex) : (meanDim1 ex).length = h := by
  obtain ⟨hlen, hrows⟩ := hex
  cases ex with
  | nil => rw [List.length_nil] at hlen; omega
  | cons r tl =>
    rw [meanDim1, List.length_map, List.length_range,
      hrows r (List.mem_cons_self r tl)]

/-- C10: for any input batch whose LSTM output satisfies the framework's
(B, L, hidden_size) shape contract, forward returns one n_classes-vector of
logits per example — the head applied to the coordinatewise mean over the L
time steps of the last layer's output — so the logits have shape
(B, n_classes) whatever the number of LSTM layers; for every hidden size of
the grid and the script's 2 stacked LSTM layers, n_classes = 2 differs from
hidden_size * num layers, so the output is not the concatenation of the last
hidden states of all layers that the docstring describes. -/
theorem c10_forward_mean_head (B L I h n_classes : ℕ)
    (lstm : List (List (List ℚ)) → List (List (List ℚ)))
    (head : List ℚ → List ℚ) (seq : List (List (List ℚ)))
    (hL : 1 ≤ L) (hseq : isTensor3 B L I seq)
    (hlstm : isTensor3 B L h (lstm seq))
    (hhead : ∀ v : List ℚ, v.length = h → (head v).length = n_classes) :
    isMatrix B n_classes (forward lstm head seq)
    ∧ (∀ ex ∈ lstm seq, ∀ k : ℕ, k < h →
        (meanDim1 ex)[k]? =
          some ((ex.map (fun row => row.getD k 0)).sum / (L : ℚ)))
    ∧ (forward lstm head seq =
        (lstm seq).map (fun ex => head (meanDim1 ex)))
    ∧ (∀ hs ∈ hidden_sizes, ∀ cap nll : ℕ, ∀ d : ℚ,
        (mainModel cap hs default_num_lstm_layers nll d).n_classes ≠
          hs * default_num_lstm_layers) := by
  obtain ⟨hblen, hexs⟩ := hlstm
  refine ⟨⟨?_, ?_⟩, ?_, rfl, ?_⟩
  · rw [forward, List.length_map, hblen]
  · intro r hr
    rw [forward] at hr
    obtain ⟨ex, hex, hrr⟩ := List.mem_map.mp hr
    rw [← hrr]
    exact hhead (meanDim1 ex) (meanDim1_length L h hL ex (hexs ex hex))
  · intro ex hex k hk
    obtain ⟨hlen, hrows⟩ := hexs ex hex
    cases ex with
    | nil => rw [List.length_nil] at hlen; omega
    | cons r tl =>
      have hr : r.length = h := hrows r (List.mem_cons_self r tl)
      rw [meanDim1, List.getElem?_map, hr,
        List.getElem?_range (by omega : k < h)]
      rw [List.length_cons] at hlen ⊢
      rw [hlen]
      rfl
  · intro hs hmem cap nll d
    have hn : (mainModel cap hs default_num_lstm_layers nll d).n_classes = 2 := rfl
    rw [hn]
    simp only [hidden_sizes, List.mem_cons, List.not_mem_nil, or_false] at hmem
    rcases hmem with rfl | rfl | rfl | rfl <;> decide

/-- Witness for C10 at a concrete one-example batch with two time steps,
hidden size 2 and an identity-like LSTM and head. -/
theorem c10_forward_mean_head_witness :
    (1 ≤ 2
    ∧ isTensor3 1 2 1 [[[0], [0]]]
    ∧ isTensor3 1 2 2 ((fun _ => [[[1, 0], [0, 1]]])
        ([[[0], [0]]] : List (List (List ℚ))))
    ∧ (∀ v : List ℚ, v.length = 2 →
        (linearApply [[1, 0], [0, 1]] [0, 0] v).length = 2))
    ∧ isMatrix 1 2 (forward (fun _ => [[[1, 0], [0, 1]]])
        (linearApply [[1, 0], [0, 1]] [0, 0]) [[[0], [0]]]) := by
  have hseq : isTensor3 1 2 1 ([[[0], [0]]] : List (List (List ℚ))) := by
    refine ⟨rfl, ?_⟩
    intro ex hex
    rw [List.mem_singleton.mp hex]
    refine ⟨rfl, ?_⟩
    intro r hr
    rcases List.mem_cons.mp hr with rfl | hr
    · rfl
    · rw [List.mem_singleton.mp hr]
      rfl
  have hlstm : isTensor3 1 2 2 ((fun _ => [[[1, 0], [0, 1]]])
      ([[[0], [0]]] : List (List (List ℚ)))) := by
    refine ⟨rfl, ?_⟩
    intro ex hex
    rw [List.mem_singleton.mp hex]
    refine ⟨rfl, ?_⟩
    intro r hr
    rcases List.mem_cons.mp hr with rfl | hr
    · rfl
    · rw [List.mem_singleton.mp hr]
      rfl
  have hhead : ∀ v : List ℚ, v.length = 2 →
      (linearApply [[1, 0], [0, 1]] [0, 0] v).length = 2 := by
    intro v _
    rw [linearApply_length]
    rfl
  exact ⟨⟨by omega, hseq, hlstm, hhead⟩,
    (c10_forward_mean_head 1 2 1 2 2 (fun _ => [[[1, 0], [0, 1]]])
      (linearApply [[1, 0], [0, 1]] [0, 0]) [[[0], [0]]]
      (by omega) hseq hlstm hhead).1⟩

end LstmBaseline
